import Mathlib

/-!
# Verification of the FastQC pipeline (`fastqc_pipe.py`)

Shallow embedding of the pure content of `fastqc_pipe.py`: filename
construction for merged outputs, the byte-level merge loop, lane-file
collection and sorting, sample-list parsing, thread-count resolution,
the FastQC-presence guard, and post-run cleanup.

File contents are modelled as `List Nat` (byte sequences); the filesystem
is a partial map `String → Option (List Nat)` (`none` = missing/unreadable).
Python strings are Lean `String`s; char-level helpers mirror the exact
Python semantics (`str.find` returning `-1`, truthiness of nonzero ints,
`str.strip`, `str.replace`, leading-`#` header test).
-/

/-- `prefixMatches needle hay` is true iff `needle` is a prefix of `hay`
(char lists). Helper for the Python `str.find` model. -/
def prefixMatches : List Char → List Char → Bool
  | [], _ => true
  | _ :: _, [] => false
  | a :: as, b :: bs => a = b && prefixMatches as bs

/-- Scan `hay` from index `i` for the first occurrence of `needle`;
`-1` if absent. -/
def findAux (needle : List Char) : List Char → Nat → Int
  | [], i => if prefixMatches needle [] then (i : Int) else -1
  | c :: rest, i =>
    if prefixMatches needle (c :: rest) then (i : Int)
    else findAux needle rest (i + 1)

/-- Python `s.find(sub)`: index of the first occurrence of `sub` in `s`,
or `-1` when `sub` does not occur. -/
def pyFind (s sub : String) : Int := findAux sub.data s.data 0

/-- Merged-output filename, as built by `merge_fastq` (src/fastqc_pipe.py,
lines 146-152): base name `{sample_id}_R{read_number}.fastq`, prefixed by
`merge_dir + "/"` when `merge_dir` is nonempty, then `".gz"` appended when
`r_string.find("gz")` is truthy in Python, i.e. when the index is any
value other than `0` (including `-1` = not found). -/
def mergeName (read_number : String) (read_files : List String)
    (sample_id : String) (merge_dir : String) : String :=
  let r_string := String.intercalate " " read_files
  let base := sample_id ++ "_R" ++ read_number ++ ".fastq"
  let base := if merge_dir ≠ "" then merge_dir ++ "/" ++ base else base
  if pyFind r_string "gz" = 0 then base else base ++ ".gz"

/-- The copy loop of `merge_fastq` (lines 159-161): append each source
file's bytes to the already-open target. Returns `(completed?, bytes
written to the target so far)`; a missing/unreadable source (`fs f =
none`) raises, stopping the loop with the bytes written up to that
point still in the target file. -/
def copyLoop (fs : String → Option (List Nat)) :
    List String → List Nat → Bool × List Nat
  | [], acc => (true, acc)
  | f :: rest, acc =>
    match fs f with
    | none => (false, acc)
    | some bytes => copyLoop fs rest (acc ++ bytes)

/-- One merge job's write (lines 158-161): `Path.open(merge_name, "wb")`
creates/truncates the target before any source is read, then the copy
loop runs. Result: `(completed?, state of the target file on disk)` —
the target exists (is `some _`) even when the loop aborts. -/
def mergeWrite (files : List String) (fs : String → Option (List Nat)) :
    Bool × Option (List Nat) :=
  let r := copyLoop fs files []
  (r.1, some r.2)

/-- Bytes of the sources that precede the first unreadable one. -/
def prefixBytes (files : List String) (fs : String → Option (List Nat)) :
    List Nat :=
  ((files.takeWhile fun f => (fs f).isSome).map fun f => (fs f).getD []).flatten

/-- Python `s.replace(" ", "\\ ")` as applied in `collect_reads`
(line 125): every space becomes backslash-space. -/
def escapeSpaces (s : String) : String :=
  ⟨s.data.flatMap fun c => if c = ' ' then ['\\', ' '] else [c]⟩

/-- Lexicographic comparison of char lists by code point: the order
Python's `list.sort()` applies to strings. -/
def pathLeBool : List Char → List Char → Bool
  | [], _ => true
  | _ :: _, [] => false
  | a :: as, b :: bs =>
    if a < b then true else if b < a then false else pathLeBool as bs

/-- Python string order `a <= b` as a relation on Lean strings. -/
def pathLe (a b : String) : Prop := pathLeBool a.data b.data = true

instance : DecidableRel pathLe := fun a b =>
  inferInstanceAs (Decidable (pathLeBool a.data b.data = true))

/-- `collect_reads` (lines 121-129), modelled on the list of resolved path
strings that the recursive glob enumerated (in arbitrary filesystem
order): each path has spaces escaped, then the list is sorted by
Python string comparison, i.e. lexicographically on the full path. -/
def collect_reads (enumerated : List String) : List String :=
  List.insertionSort pathLe (enumerated.map escapeSpaces)

/-- Lane number of a lane file path: the digit following the first
`_L00` in the path (`0` when no such marker exists). Observation
function used to state lane-ordering properties. -/
def laneOfAux : List Char → Nat
  | '_' :: 'L' :: '0' :: '0' :: c :: _ => c.toNat - '0'.toNat
  | _ :: rest => laneOfAux rest
  | [] => 0

/-- Lane number of a path string. -/
def laneOf (s : String) : Nat := laneOfAux s.data

/-- Each adjacent pair of paths is in (non-strictly) ascending lane
order. -/
def laneAscendingBool : List String → Bool
  | [] => true
  | [_] => true
  | a :: b :: rest => decide (laneOf a ≤ laneOf b) && laneAscendingBool (b :: rest)

/-- A list of lane-file paths is in ascending lane order. -/
def laneAscending (l : List String) : Prop := laneAscendingBool l = true

instance (l : List String) : Decidable (laneAscending l) :=
  inferInstanceAs (Decidable (laneAscendingBool l = true))

/-- Python `line.startswith("#")` (line 184). -/
def isHeader (line : String) : Bool :=
  match line.data with
  | '#' :: _ => true
  | _ => false

/-- Python `line.strip()` (line 188): whitespace removed at both ends. -/
def pyStrip (s : String) : String :=
  ⟨((s.data.dropWhile Char.isWhitespace).reverse.dropWhile
    Char.isWhitespace).reverse⟩

/-- A merge job as built in `parse_input_file` (line 198):
`[read, read_file_list, sample_id]`. -/
structure MergeJob where
  read : String
  files : List String
  sample : String
deriving DecidableEq, Repr

/-- A Python runtime error. `typeError` models the `TypeError` raised by
`for read in reads:` (line 193) when `reads` is the int `args.reads`
rather than a list (line 189 binds `reads = ["1", "2"] if args.reads == 3
else args.reads`). -/
inductive PyError where
  | typeError
deriving DecidableEq, Repr

/-- The inner loop of `parse_input_file` (lines 193-198) for one sample:
for each read direction, look up the lane files (`collect_reads` result,
abstracted as `find`); an empty result logs a warning `(sample, read)`
and creates no job, a nonempty result appends a merge job. -/
def processReads (find : String → String → List String) (sample : String) :
    List String → List MergeJob × List (String × String)
  | [] => ([], [])
  | r :: rs =>
    let rest := processReads find sample rs
    if find sample r = [] then (rest.1, (sample, r) :: rest.2)
    else (⟨r, find sample r, sample⟩ :: rest.1, rest.2)

/-- `parse_input_file` (lines 179-202) over the lines of the run list:
header lines (leading `#`) are skipped; for each remaining line the
sample id is the stripped line. With `readsArg = 3` (the default) the
read directions are `["1", "2"]`; any other value makes `reads` the
bare int, and the `for read in reads:` iteration raises `TypeError` at
the first data line. Returns the merge jobs and the logged warnings. -/
def parse_input_file (find : String → String → List String) (readsArg : Int) :
    List String → Except PyError (List MergeJob × List (String × String))
  | [] => Except.ok ([], [])
  | line :: rest =>
    if isHeader line then parse_input_file find readsArg rest
    else if readsArg = 3 then
      match parse_input_file find readsArg rest with
      | Except.error e => Except.error e
      | Except.ok (js, ws) =>
        let cur := processReads find (pyStrip line) ["1", "2"]
        Except.ok (cur.1 ++ js, cur.2 ++ ws)
    else Except.error PyError.typeError

/-- Thread-count resolution in `main` (lines 214-217): `args.threads = 0`
means auto-detect, `len(qc_jobs)` if it is at most the core count, else
the core count; any other value is used as given. -/
def resolveThreads (argThreads : Int) (numJobs cores : Nat) : Int :=
  if argThreads = 0 then
    (if numJobs ≤ cores then (numJobs : Int) else (cores : Int))
  else argThreads

/-- The thread-count validation in `__main__` (lines 241-244): returns
`(warning logged?, run proceeds?)`. The code only logs a warning when the
request exceeds the core count and never aborts. -/
def threadCheck (argThreads : Int) (cores : Nat) : Bool × Bool :=
  (decide ((cores : Int) < argThreads), true)

/-- Outcome of the pre-run FastQC guard. -/
inductive GuardResult where
  | proceed
  | abort
deriving DecidableEq, Repr

/-- The FastQC-installation check in `__main__` (lines 251-260):
`app = shutil.which("fastqc")` is `none` when the tool is not on the
search path. The code only runs a check when `app is not None`; in that
branch a failing `fastqc -h` invocation raises out of the block
(`helpOk = false` → abort). When `which` returns `none` the whole block
is skipped and `main(args)` — including all merge work — runs. -/
def fastqcGuard (which : Option String) (helpOk : Bool) : GuardResult :=
  match which with
  | some _ => if helpOk then GuardResult.proceed else GuardResult.abort
  | none => GuardResult.proceed

/-- Post-run cleanup in `main` (lines 223-228): `subprocess.run` is
called with `check=False`, so the QC exit status `_exitCode` is ignored;
afterwards, when `clean` is set every path in `qc_jobs` (the merged
files) is unlinked and nothing else is touched. Result: the disk state
after the run. -/
def runCleanup (_exitCode : Int) (clean : Bool) (qc_jobs : List String)
    (disk : String → Option (List Nat)) : String → Option (List Nat) :=
  fun p => if clean && qc_jobs.contains p then none else disk p

/-! ## Helper lemmas -/

theorem copyLoop_all_some (fs : String → Option (List Nat)) :
    ∀ (files : List String) (acc : List Nat),
      (∀ f ∈ files, (fs f).isSome = true) →
      copyLoop fs files acc = (true, acc ++ (files.map fun f => (fs f).getD []).flatten)
  | [], acc, _ => by simp [copyLoop]
  | f :: rest, acc, h => by
    have hf : (fs f).isSome = true := h f (List.mem_cons_self f rest)
    obtain ⟨b, hb⟩ := Option.isSome_iff_exists.mp hf
    have ih := copyLoop_all_some fs rest (acc ++ b)
      (fun g hg => h g (List.mem_cons_of_mem f hg))
    simp [copyLoop, hb, ih, List.append_assoc]

theorem copyLoop_stops_at_missing (fs : String → Option (List Nat)) :
    ∀ (files : List String) (acc : List Nat),
      (∃ f ∈ files, fs f = none) →
      (copyLoop fs files acc).1 = false ∧
      (copyLoop fs files acc).2 =
        acc ++ ((files.takeWhile fun f => (fs f).isSome).map
          fun f => (fs f).getD []).flatten
  | [], acc, h => by simp at h
  | f :: rest, acc, h => by
    cases hf : fs f with
    | none =>
      simp [copyLoop, hf, List.takeWhile]
    | some b =>
      obtain ⟨g, hg, hgn⟩ := h
      rcases List.mem_cons.mp hg with rfl | hg'
      · rw [hf] at hgn; exact absurd hgn (by simp)
      · have ih := copyLoop_stops_at_missing fs rest (acc ++ b) ⟨g, hg', hgn⟩
        simp [copyLoop, hf, List.takeWhile, ih.1, ih.2, List.append_assoc]

theorem pathLeBool_total :
    ∀ (a b : List Char), pathLeBool a b = true ∨ pathLeBool b a = true
  | [], _ => Or.inl rfl
  | _ :: _, [] => Or.inr rfl
  | a :: as, b :: bs => by
    rcases lt_trichotomy a b with h | h | h
    · left; simp [pathLeBool, h]
    · subst h
      rcases pathLeBool_total as bs with ih | ih
      · left; simp [pathLeBool, lt_irrefl, ih]
      · right; simp [pathLeBool, lt_irrefl, ih]
    · right; simp [pathLeBool, h]

theorem pathLeBool_trans :
    ∀ (a b c : List Char), pathLeBool a b = true → pathLeBool b c = true →
      pathLeBool a c = true
  | [], _, _, _, _ => rfl
  | _ :: _, [], _, hab, _ => by simp [pathLeBool] at hab
  | _ :: _, _ :: _, [], _, hbc => by simp [pathLeBool] at hbc
  | a :: as, b :: bs, c :: cs, hab, hbc => by
    rcases lt_trichotomy a b with h1 | h1 | h1
    · rcases lt_trichotomy b c with h2 | h2 | h2
      · simp [pathLeBool, h1.trans h2]
      · subst h2; simp [pathLeBool, h1]
      · simp [pathLeBool, h2, asymm h2] at hbc
    · subst h1
      rcases lt_trichotomy a c with h2 | h2 | h2
      · simp [pathLeBool, h2]
      · subst h2
        simp only [pathLeBool, lt_irrefl, if_false, if_neg (lt_irrefl a)] at hab hbc ⊢
        exact pathLeBool_trans as bs cs hab hbc
      · simp [pathLeBool, h2, asymm h2] at hbc
    · simp [pathLeBool, h1, asymm h1] at hab

theorem pathLeBool_antisymm :
    ∀ (a b : List Char), pathLeBool a b = true → pathLeBool b a = true → a = b
  | [], [], _, _ => rfl
  | [], _ :: _, _, hba => by simp [pathLeBool] at hba
  | _ :: _, [], hab, _ => by simp [pathLeBool] at hab
  | a :: as, b :: bs, hab, hba => by
    rcases lt_trichotomy a b with h1 | h1 | h1
    · simp [pathLeBool, h1, asymm h1] at hba
    · subst h1
      simp only [pathLeBool, lt_irrefl, if_neg (lt_irrefl a)] at hab hba
      exact congrArg (a :: ·) (pathLeBool_antisymm as bs hab hba)
    · simp [pathLeBool, h1, asymm h1] at hab

/-! ## Claim theorems -/

/-- Claim C1 (code bug): at sample `Exp001_S1`, direction `1`, with a
single non-gzip input, `merge_fastq` names the output
`Exp001_S1_R1.fastq.gz`, not the documented `Exp001_S1_R1.fastq`:
`r_string.find("gz")` is `-1` for non-gzip inputs, which is truthy in
Python, so the `.gz` suffix is appended exactly when the marker is NOT
at index 0. -/
theorem merge_name_gz_bug :
    mergeName "1" ["Exp001_S1_L001_R1.fastq"] "Exp001_S1" ""
        = "Exp001_S1_R1.fastq.gz" ∧
      mergeName "1" ["Exp001_S1_L001_R1.fastq"] "Exp001_S1" ""
        ≠ "Exp001_S1_R1.fastq" := by
  decide

/-- Claim C2 (code bug): when `shutil.which("fastqc")` returns `None`
(the QC tool is not on the search path), the guard in `__main__` skips
its body entirely (`if app is not None:`) and proceeds into `main`,
where all merge work runs; the run is not aborted before merging. -/
theorem fastqc_missing_guard_proceeds :
    fastqcGuard none true = GuardResult.proceed ∧
      fastqcGuard none false = GuardResult.proceed :=
  ⟨rfl, rfl⟩

/-- Claim C7: with the auto-detect sentinel `0`, the thread count passed
to FastQC is the minimum of the number of merge jobs and the number of
available cores. -/
theorem auto_threads_min (numJobs cores : Nat) :
    resolveThreads 0 numJobs cores = ((min numJobs cores : Nat) : Int) := by
  unfold resolveThreads
  rw [if_pos rfl, Nat.min_def]
  split <;> simp_all

/-- Claim C8 counterexample: requesting 8 threads on a 4-core host logs
the warning and proceeds, but the thread count handed to FastQC is
still 8 — it is not clamped to the core count. -/
theorem threads_not_clamped_cx :
    threadCheck 8 4 = (true, true) ∧
      resolveThreads 8 2 4 = 8 ∧ resolveThreads 8 2 4 ≠ 4 ∧ (4 : Int) < 8 := by
  decide

/-- Claim C8 (amended): an explicit thread request exceeding the core
count logs a warning and the run proceeds, but the requested value is
passed to FastQC unchanged (no clamping). -/
theorem threads_warn_and_pass_through (t : Int) (cores numJobs : Nat)
    (h : t ≠ 0) :
    ((cores : Int) < t → threadCheck t cores = (true, true)) ∧
      resolveThreads t numJobs cores = t := by
  constructor
  · intro hlt
    simp [threadCheck, hlt]
  · simp [resolveThreads, h]

/-- Witness for C8: concrete instance of `threads_warn_and_pass_through`
at 8 requested threads, 4 cores, 2 jobs. -/
theorem threads_warn_witness :
    threadCheck 8 4 = (true, true) ∧ resolveThreads 8 2 4 = 8 := by
  obtain ⟨hw, hp⟩ := threads_warn_and_pass_through 8 4 2 (by decide)
  exact ⟨hw (by decide), hp⟩

/-- Claim C9: the cleanup step ignores the QC exit status; with the
clean flag every merged file is removed, without it the disk is
untouched, and paths outside the merged list (in particular the source
lane files) are never removed. -/
theorem cleanup_merged_files (ec ec' : Int) (clean : Bool)
    (qc_jobs : List String) (disk : String → Option (List Nat)) :
    runCleanup ec clean qc_jobs disk = runCleanup ec' clean qc_jobs disk ∧
      (clean = true → ∀ m ∈ qc_jobs, runCleanup ec clean qc_jobs disk m = none) ∧
      (clean = false → ∀ p, runCleanup ec clean qc_jobs disk p = disk p) ∧
      (∀ p, p ∉ qc_jobs → runCleanup ec clean qc_jobs disk p = disk p) := by
  refine ⟨rfl, ?_, ?_, ?_⟩
  · intro h m hm
    simp [runCleanup, h, hm]
  · intro h p
    simp [runCleanup, h]
  · intro p hp
    simp [runCleanup, hp]

/-- Witness for C9: concrete instance of `cleanup_merged_files` — the
merged file is removed when cleaning, and an unrelated source path
survives with and without cleaning. -/
theorem cleanup_merged_files_witness :
    runCleanup 5 true ["m.fastq.gz"] (fun _ => some [0]) "m.fastq.gz" = none ∧
      runCleanup 5 false ["m.fastq.gz"] (fun _ => some [0]) "src.fastq" = some [0] ∧
      runCleanup 5 true ["m.fastq.gz"] (fun _ => some [0]) "src.fastq" = some [0] := by
  obtain ⟨_, h2, _, h4⟩ :=
    cleanup_merged_files 5 7 true ["m.fastq.gz"] (fun _ => some [0])
  obtain ⟨_, _, h3, _⟩ :=
    cleanup_merged_files 5 7 false ["m.fastq.gz"] (fun _ => some [0])
  exact ⟨h2 rfl _ (by simp), h3 rfl _, h4 _ (by simp)⟩

/-- Claim C4: when every source file is readable, the merged target's
bytes are exactly the concatenation of the sources' bytes in input-list
order. -/
theorem merge_fastq_concat (files : List String)
    (fs : String → Option (List Nat))
    (h : ∀ f ∈ files, (fs f).isSome = true) :
    mergeWrite files fs
      = (true, some ((files.map fun f => (fs f).getD []).flatten)) := by
  simp [mergeWrite, copyLoop_all_some fs files [] h]

/-- Witness for C4: merging `A.fastq` (bytes `[65, 10]`) and `B.fastq`
(bytes `[66, 10]`) yields exactly `[65, 10, 66, 10]`. -/
theorem merge_fastq_concat_witness :
    mergeWrite ["A.fastq", "B.fastq"]
        (fun p => if p = "A.fastq" then some [65, 10]
          else if p = "B.fastq" then some [66, 10] else none)
      = (true, some [65, 10, 66, 10]) :=
  (merge_fastq_concat ["A.fastq", "B.fastq"]
    (fun p => if p = "A.fastq" then some [65, 10]
      else if p = "B.fastq" then some [66, 10] else none)
    (by decide)).trans (by decide)

/-- Claim C5 counterexample: with sources `[A.fastq, B.fastq]` where
`A.fastq` holds `[7]` and `B.fastq` is missing, the merge loop aborts
(first component `false`) but the target file is left on disk
(`some [7]`): a truncated merged output containing only `A`'s bytes.
The target is opened for writing before any source is read, so the
abort is not clean. -/
theorem merge_missing_source_cx :
    mergeWrite ["A.fastq", "B.fastq"]
        (fun p => if p = "A.fastq" then some [7] else none)
      = (false, some [7]) ∧
      (mergeWrite ["A.fastq", "B.fastq"]
        (fun p => if p = "A.fastq" then some [7] else none)).2 ≠ none := by
  decide

/-- Claim C5 (amended): a missing/unreadable source makes the merge loop
abort — the exception is not caught, so the run is fatal — but the
target file remains on disk holding the bytes of the sources copied
before the failure. -/
theorem merge_missing_source_aborts (files : List String)
    (fs : String → Option (List Nat)) (h : ∃ f ∈ files, fs f = none) :
    (mergeWrite files fs).1 = false ∧
      (mergeWrite files fs).2 = some (prefixBytes files fs) := by
  have hc := copyLoop_stops_at_missing fs files [] h
  simp [mergeWrite, prefixBytes, hc.1, hc.2]

/-- Witness for C5: concrete instance of `merge_missing_source_aborts` —
`X` holds `[1, 2]`, `Y` is missing, `Z` never reached; the target is
left with `[1, 2]` and the run aborted. -/
theorem merge_missing_source_witness :
    mergeWrite ["X", "Y", "Z"] (fun p => if p = "X" then some [1, 2] else none)
      = (false, some [1, 2]) := by
  have h := merge_missing_source_aborts ["X", "Y", "Z"]
    (fun p => if p = "X" then some [1, 2] else none) (by decide)
  exact Prod.ext_iff.mpr ⟨h.1, h.2.trans (by decide)⟩

/-- Claim C3 counterexample: sample `S1` with lane files 1-4 spread over
two subdirectories of the search root. `collect_reads` sorts by full
path, so the `runA` paths (lanes 3 and 4) precede the `runB` paths
(lanes 1 and 2): the result is not in ascending lane order, refuting
"sorted strictly by ascending lane number ... with the full path only
as a tiebreak". -/
theorem collect_reads_lane_order_cx :
    collect_reads ["/data/runB/S1_L001_R1.fastq", "/data/runB/S1_L002_R1.fastq",
        "/data/runA/S1_L003_R1.fastq", "/data/runA/S1_L004_R1.fastq"]
      = ["/data/runA/S1_L003_R1.fastq", "/data/runA/S1_L004_R1.fastq",
        "/data/runB/S1_L001_R1.fastq", "/data/runB/S1_L002_R1.fastq"] ∧
      ¬ laneAscending (collect_reads ["/data/runB/S1_L001_R1.fastq",
        "/data/runB/S1_L002_R1.fastq", "/data/runA/S1_L003_R1.fastq",
        "/data/runA/S1_L004_R1.fastq"]) := by
  decide

/-- Claim C3 (amended): `collect_reads` returns the space-escaped matched
paths sorted lexicographically ascending by the full path string — a
deterministic order, independent of the filesystem enumeration order —
which coincides with ascending lane order only when all matches share
the same directory. -/
theorem collect_reads_sorted_by_path (l l' : List String) :
    List.Sorted pathLe (collect_reads l) ∧
      (collect_reads l).Perm (l.map escapeSpaces) ∧
      (l.Perm l' → collect_reads l = collect_reads l') := by
  haveI : IsTotal String pathLe := ⟨fun a b => pathLeBool_total a.data b.data⟩
  haveI : IsTrans String pathLe :=
    ⟨fun a b c => pathLeBool_trans a.data b.data c.data⟩
  haveI : IsAntisymm String pathLe :=
    ⟨fun a b hab hba => String.ext (pathLeBool_antisymm a.data b.data hab hba)⟩
  refine ⟨List.sorted_insertionSort pathLe _, List.perm_insertionSort pathLe _,
    fun hperm => ?_⟩
  exact List.eq_of_perm_of_sorted
    ((List.perm_insertionSort pathLe _).trans
      ((hperm.map escapeSpaces).trans (List.perm_insertionSort pathLe _).symm))
    (List.sorted_insertionSort pathLe _) (List.sorted_insertionSort pathLe _)

/-- Witness for C3: concrete instance of `collect_reads_sorted_by_path` —
the two enumeration orders of the same two paths produce the same
sorted output. -/
theorem collect_reads_sorted_witness :
    collect_reads ["/b/S1_L001_R1.fastq", "/a/S1_L002_R1.fastq"]
        = collect_reads ["/a/S1_L002_R1.fastq", "/b/S1_L001_R1.fastq"] ∧
      List.Sorted pathLe
        (collect_reads ["/b/S1_L001_R1.fastq", "/a/S1_L002_R1.fastq"]) := by
  obtain ⟨hs, _, he⟩ := collect_reads_sorted_by_path
    ["/b/S1_L001_R1.fastq", "/a/S1_L002_R1.fastq"]
    ["/a/S1_L002_R1.fastq", "/b/S1_L001_R1.fastq"]
  exact ⟨he (List.Perm.swap _ _ _), hs⟩

theorem processReads_job_prop (find : String → String → List String)
    (sample : String) :
    ∀ (rs : List String), ∀ j ∈ (processReads find sample rs).1,
      find j.sample j.read ≠ [] ∧ j.files = find j.sample j.read ∧
        j.sample = sample
  | [], j, hj => by simp [processReads] at hj
  | r :: rs, j, hj => by
    by_cases h : find sample r = []
    · rw [show processReads find sample (r :: rs)
          = ((processReads find sample rs).1,
            (sample, r) :: (processReads find sample rs).2) by
          simp [processReads, h]] at hj
      exact processReads_job_prop find sample rs j hj
    · rw [show processReads find sample (r :: rs)
          = (⟨r, find sample r, sample⟩ :: (processReads find sample rs).1,
            (processReads find sample rs).2) by
          simp [processReads, h]] at hj
      rcases List.mem_cons.mp hj with rfl | hj'
      · exact ⟨h, rfl, rfl⟩
      · exact processReads_job_prop find sample rs j hj'

theorem processReads_warn_mem (find : String → String → List String)
    (sample : String) :
    ∀ (rs : List String) (r : String), r ∈ rs → find sample r = [] →
      (sample, r) ∈ (processReads find sample rs).2
  | [], r, hr, _ => by simp at hr
  | r' :: rs, r, hr, hfind => by
    rcases List.mem_cons.mp hr with rfl | hr'
    · simp [processReads, hfind]
    · by_cases h : find sample r' = [] <;>
        simp [processReads, h,
          processReads_warn_mem find sample rs r hr' hfind]

theorem processReads_job_mem (find : String → String → List String)
    (sample : String) :
    ∀ (rs : List String) (r : String), r ∈ rs → find sample r ≠ [] →
      (⟨r, find sample r, sample⟩ : MergeJob) ∈ (processReads find sample rs).1
  | [], r, hr, _ => by simp at hr
  | r' :: rs, r, hr, hfind => by
    rcases List.mem_cons.mp hr with rfl | hr'
    · simp [processReads, hfind]
    · by_cases h : find sample r' = [] <;>
        simp [processReads, h,
          processReads_job_mem find sample rs r hr' hfind]

/-- Claim C6: with the default both-directions setting (`readsArg = 3`),
parsing never fails; every produced merge job comes from a nonempty
locator result (an entry whose locator result is empty produces no
job); each such empty entry logs a warning; and every data line with a
nonempty locator result still gets its merge job (processing continues
past skipped entries). -/
theorem parse_skip_empty (find : String → String → List String) :
    ∀ (lines : List String),
      ∃ jw, parse_input_file find 3 lines = Except.ok jw ∧
        (∀ j ∈ jw.1, find j.sample j.read ≠ [] ∧
          j.files = find j.sample j.read) ∧
        (∀ line ∈ lines, isHeader line = false →
          ∀ r ∈ (["1", "2"] : List String), find (pyStrip line) r = [] →
            (pyStrip line, r) ∈ jw.2) ∧
        (∀ line ∈ lines, isHeader line = false →
          ∀ r ∈ (["1", "2"] : List String), find (pyStrip line) r ≠ [] →
            (⟨r, find (pyStrip line) r, pyStrip line⟩ : MergeJob) ∈ jw.1)
  | [] => ⟨([], []), rfl, by simp, by simp, by simp⟩
  | line :: rest => by
    obtain ⟨⟨js, ws⟩, heq, hjobs, hwarn, hjob⟩ := parse_skip_empty find rest
    by_cases hh : isHeader line
    · refine ⟨(js, ws), ?_, hjobs, ?_, ?_⟩
      · simpa [parse_input_file, hh] using heq
      · intro l hl hlh r hr hfind
        rcases List.mem_cons.mp hl with rfl | hl'
        · rw [hh] at hlh; cases hlh
        · exact hwarn l hl' hlh r hr hfind
      · intro l hl hlh r hr hfind
        rcases List.mem_cons.mp hl with rfl | hl'
        · rw [hh] at hlh; cases hlh
        · exact hjob l hl' hlh r hr hfind
    · refine ⟨((processReads find (pyStrip line) ["1", "2"]).1 ++ js,
        (processReads find (pyStrip line) ["1", "2"]).2 ++ ws), ?_, ?_, ?_, ?_⟩
      · simp [parse_input_file, hh, heq]
      · intro j hj
        rcases List.mem_append.mp hj with hj' | hj'
        · obtain ⟨h1, h2, _⟩ :=
            processReads_job_prop find (pyStrip line) ["1", "2"] j hj'
          exact ⟨h1, h2⟩
        · exact hjobs j hj'
      · intro l hl hlh r hr hfind
        rcases List.mem_cons.mp hl with rfl | hl'
        · exact List.mem_append_left _
            (processReads_warn_mem find (pyStrip l) ["1", "2"] r hr hfind)
        · exact List.mem_append_right _ (hwarn l hl' hlh r hr hfind)
      · intro l hl hlh r hr hfind
        rcases List.mem_cons.mp hl with rfl | hl'
        · exact List.mem_append_left _
            (processReads_job_mem find (pyStrip l) ["1", "2"] r hr hfind)
        · exact List.mem_append_right _ (hjob l hl' hlh r hr hfind)

/-- Witness for C6: run list `["#h", "S1", "S2"]` where only `S2`
direction `1` has lane files: parsing succeeds, a warning is logged for
`S1` direction `1`, and the `S2` job is still created. -/
theorem parse_skip_empty_witness :
    ∃ jw, parse_input_file
        (fun s r => if s = "S2" && r = "1" then ["f1"] else []) 3
        ["#h", "S1", "S2"] = Except.ok jw ∧
      ("S1", "1") ∈ jw.2 ∧ (⟨"1", ["f1"], "S2"⟩ : MergeJob) ∈ jw.1 := by
  obtain ⟨jw, h1, _, h3, h4⟩ := parse_skip_empty
    (fun s r => if s = "S2" && r = "1" then ["f1"] else []) ["#h", "S1", "S2"]
  refine ⟨jw, h1, ?_, ?_⟩
  · have := h3 "S1" (by simp) (by decide) "1" (by simp) (by decide)
    simpa using this
  · have := h4 "S2" (by simp) (by decide) "1" (by simp) (by decide)
    simpa using this

/-- Claim C10: with the read restriction set to a single direction
(`readsArg = 1` or `2`) and at least one non-header line (in particular
one whose sample has matching lane files), `parse_input_file` raises
`TypeError` at the `for read in reads:` iteration, because line 189
binds `reads` to the bare int instead of a list; only `readsArg = 3`
builds merge jobs. -/
theorem reads_restriction_type_error (find : String → String → List String)
    (readsArg : Int) :
    ∀ (lines : List String), readsArg = 1 ∨ readsArg = 2 →
      (∃ line ∈ lines, isHeader line = false ∧
        ∃ r, find (pyStrip line) r ≠ []) →
      parse_input_file find readsArg lines = Except.error PyError.typeError
  | [], _, hex => by simp at hex
  | line :: rest, h12, hex => by
    have hne3 : ¬ readsArg = 3 := by rcases h12 with rfl | rfl <;> decide
    by_cases hh : isHeader line
    · obtain ⟨l, hl, hlh, hr⟩ := hex
      rcases List.mem_cons.mp hl with rfl | hl'
      · rw [hh] at hlh; cases hlh
      · have := reads_restriction_type_error find readsArg rest h12
          ⟨l, hl', hlh, hr⟩
        simpa [parse_input_file, hh] using this
    · simp [parse_input_file, hh, hne3]

/-- Witness for C10: restricting to direction `1` with a run list
holding one data line whose sample has lane files raises `TypeError`. -/
theorem reads_restriction_witness :
    parse_input_file (fun s r => if s = "S1" && r = "1" then ["f"] else [])
        1 ["#h", "S1"] = Except.error PyError.typeError :=
  reads_restriction_type_error
    (fun s r => if s = "S1" && r = "1" then ["f"] else []) 1 ["#h", "S1"]
    (Or.inl rfl) ⟨"S1", by simp, by decide, "1", by decide⟩

/-- Witness for C7: with 5 jobs on a 3-core host, auto-detect resolves
to 3 threads. -/
theorem auto_threads_min_witness : resolveThreads 0 5 3 = 3 :=
  (auto_threads_min 5 3).trans (by decide)
